import Mathlib

/-!
Verification of the viral-project-explorer backend (Go) against its
natural-language specification.

The Go source is shallowly embedded: pure helper functions become Lean
functions over `List Char` / `Nat`; the stateful cache controller becomes an
explicit state-passing model with an interleaving step relation for the
concurrent single-flight property.  Machine integers are modelled as `Nat`
with explicit `% 2^32` where the Go code relies on 32-bit wraparound
(SHA-256); Go `error` returns become `Except`/`Option`.

Conventions:
* `NullString`, `NullFloat64`, `NullInt64`, `NullBool` mirror the
  corresponding `database/sql` null-tracking structs (field `Valid` becomes
  `valid`, the payload field becomes `str` / `val`).
* Filesystem contents are modelled as the list of paths of existing files;
  `os.Remove` removes a path, `os.Create`/`os.CreateTemp` prepends one.
* `os.Stat` is collapsed to existence: the code only distinguishes
  "file exists" from "file does not exist".
* Character-class functions (`unicode.IsSpace`, `unicode.ToLower` as used by
  `strings.TrimSpace` / `strings.Fields` / `strings.ToLower`) are embedded at
  their Latin-1 / ASCII behaviour, which covers every character produced or
  tested by the code and its test-suite.
-/

/-! ## Character and string helpers mirroring the Go strings package -/

/-- Whitespace test used by strings.TrimSpace and strings.Fields
(Go unicode.IsSpace restricted to Latin-1: tab, newline, vertical tab,
form feed, carriage return, space, next line, no-break space). -/
def goIsSpace (c : Char) : Bool :=
  c.toNat == 9 || c.toNat == 10 || c.toNat == 11 || c.toNat == 12 ||
  c.toNat == 13 || c.toNat == 32 || c.toNat == 133 || c.toNat == 160

/-- ASCII case folding of Go unicode.ToLower (as used by strings.ToLower). -/
def lowerChar (c : Char) : Char :=
  if 65 ≤ c.toNat ∧ c.toNat ≤ 90 then Char.ofNat (c.toNat + 32) else c

/-- strings.ToLower over the rune sequence. -/
def toLowerL (l : List Char) : List Char := l.map lowerChar

/-- strings.TrimSpace: drop whitespace from both ends. -/
def goTrimSpaceL (l : List Char) : List Char :=
  ((l.dropWhile goIsSpace).reverse.dropWhile goIsSpace).reverse

/-- strings.Join(strings.Fields(url), ""): concatenating the maximal
non-whitespace runs of a string removes exactly its whitespace runes. -/
def stripSpaces (l : List Char) : List Char := l.filter (fun c => !goIsSpace c)

/-- strings.HasPrefix on rune lists. -/
def leadsWith : List Char → List Char → Bool
  | [], _ => true
  | _ :: _, [] => false
  | p :: ps, c :: cs => p == c && leadsWith ps cs

/-- strings.HasSuffix on rune lists. -/
def endsWithL (suf l : List Char) : Bool := leadsWith suf.reverse l.reverse

/-- strings.TrimRight(url, "/"): remove every trailing slash. -/
def trimRightSlash (l : List Char) : List Char :=
  (l.reverse.dropWhile (fun c => c == '/')).reverse

/-- strings.TrimSuffix(url, ".git"): drop the suffix once if present. -/
def trimSuffixGit (l : List Char) : List Char :=
  if endsWithL ".git".data l then l.take (l.length - ".git".length) else l

/-- strings.Index: position of the first occurrence of pat, none if absent. -/
def indexOfSub (pat : List Char) : List Char → Option Nat
  | [] => if leadsWith pat [] then some 0 else none
  | c :: t =>
    if leadsWith pat (c :: t) then some 0
    else (indexOfSub pat t).map (· + 1)

/-- strings.Contains. -/
def containsSub (pat l : List Char) : Bool := (indexOfSub pat l).isSome

/-! ## normalizeURL (src/unnamed/part_001 lines 815-878) -/

/-- database/sql NullString: a string plus a validity flag (field Valid). -/
structure NullString where
  str : String
  valid : Bool
deriving DecidableEq, Repr

/-- dangerousSchemes (lines 817-822): URL schemes rejected for security. -/
def dangerousSchemes : List String := ["javascript:", "data:", "vbscript:", "file:"]

/-- Last normalization stage (lines 865-871): if the URL contains
"github.com/" and a "/tree/" segment, truncate at that segment. -/
def gitTreeCut (l : List Char) : List Char :=
  if containsSub "github.com/".data l then
    match indexOfSub "/tree/".data l with
    | some i => l.take i
    | none => l
  else l

/-- Scheme defaulting (lines 853-855): prepend https:// when the URL is
non-empty and carries neither an http:// nor an https:// scheme. -/
def schemeDefault (l : List Char) : List Char :=
  if !(l.isEmpty) && !(leadsWith "http://".data l) && !(leadsWith "https://".data l)
  then "https://".data ++ l else l

/-- Stages of normalizeURL after the scheme rejection (lines 853-871):
scheme defaulting, trailing-slash trimming, .git trimming, /tree/ cut. -/
def normPipeline (l : List Char) : List Char :=
  gitTreeCut (trimSuffixGit (trimRightSlash (schemeDefault l)))

/-- normalizeURL (lines 832-878): trim and strip whitespace, lowercase,
reject dangerous schemes, default the scheme to https, trim trailing
slashes, trim one .git suffix, cut github /tree/ references.  The Go
function returns interface nil for an absent result; here that is none. -/
def normalizeURL (ns : NullString) : Option String :=
  if !ns.valid || ns.str == "" then none
  else
    let u2 := toLowerL (stripSpaces (goTrimSpaceL ns.str.data))
    if dangerousSchemes.any (fun sch => leadsWith sch.data u2) then none
    else
      let u6 := normPipeline u2
      if u6.isEmpty then none else some (String.mk u6)

/-! ## hashEmail (lines 78-90): HMAC-SHA256 of the normalized email -/

/-- 32-bit truncation; the Go code computes SHA-256 on uint32 values. -/
def w32 (n : Nat) : Nat := n % 4294967296

/-- Right rotation of a 32-bit word. -/
def rotr (n x : Nat) : Nat := w32 (Nat.lor (Nat.shiftRight x n) (Nat.shiftLeft x (32 - n)))

/-- SHA-256 round constants (crypto/sha256), written in decimal. -/
def shaK : List Nat := [
  1116352408, 1899447441, 3049323471, 3921009573,
  961987163, 1508970993, 2453635748, 2870763221,
  3624381080, 310598401, 607225278, 1426881987,
  1925078388, 2162078206, 2614888103, 3248222580,
  3835390401, 4022224774, 264347078, 604807628,
  770255983, 1249150122, 1555081692, 1996064986,
  2554220882, 2821834349, 2952996808, 3210313671,
  3336571891, 3584528711, 113926993, 338241895,
  666307205, 773529912, 1294757372, 1396182291,
  1695183700, 1986661051, 2177026350, 2456956037,
  2730485921, 2820302411, 3259730800, 3345764771,
  3516065817, 3600352804, 4094571909, 275423344,
  430227734, 506948616, 659060556, 883997877,
  958139571, 1322822218, 1537002063, 1747873779,
  1955562222, 2024104815, 2227730452, 2361852424,
  2428436474, 2756734187, 3204031479, 3329325298]

/-- The eight 32-bit working variables of SHA-256. -/
structure H8 where
  a : Nat
  b : Nat
  c : Nat
  d : Nat
  e : Nat
  f : Nat
  g : Nat
  h : Nat
deriving Repr, DecidableEq

/-- SHA-256 initial hash value. -/
def shaIV : H8 :=
  ⟨1779033703, 3144134277, 1013904242, 2773480762,
   1359893119, 2600822924, 528734635, 1541459225⟩

/-- Big-endian byte serialization of n on k bytes. -/
def beBytes : Nat → Nat → List Nat
  | 0, _ => []
  | k + 1, n => ((n >>> (8 * k)) % 256) :: beBytes k n

/-- SHA-256 padding: 0x80, zeros to 56 mod 64, 8-byte big-endian bit length. -/
def padMsg (m : List Nat) : List Nat :=
  let L := m.length
  m ++ [128] ++ List.replicate ((119 - L % 64) % 64) 0 ++ beBytes 8 (8 * L)

/-- Split a byte list into 64-byte chunks (fuel-driven so that the kernel
can evaluate it; the fuel equals the list length, which suffices because
every step consumes at least one element). -/
def toChunksAux : Nat → List Nat → List (List Nat)
  | 0, _ => []
  | _, [] => []
  | fuel + 1, a :: t => ((a :: t).take 64) :: toChunksAux fuel ((a :: t).drop 64)

/-- Chunking entry point. -/
def toChunks (l : List Nat) : List (List Nat) := toChunksAux l.length l

/-- Big-endian 32-bit words from bytes. -/
def bytesToWords : List Nat → List Nat
  | a :: b :: c :: d :: rest => (a * 16777216 + b * 65536 + c * 256 + d) :: bytesToWords rest
  | _ => []

/-- SHA-256 small sigma 0. -/
def ssig0 (x : Nat) : Nat := Nat.xor (Nat.xor (rotr 7 x) (rotr 18 x)) (Nat.shiftRight x 3)

/-- SHA-256 small sigma 1. -/
def ssig1 (x : Nat) : Nat := Nat.xor (Nat.xor (rotr 17 x) (rotr 19 x)) (Nat.shiftRight x 10)

/-- SHA-256 big sigma 0. -/
def bsig0 (x : Nat) : Nat := Nat.xor (Nat.xor (rotr 2 x) (rotr 13 x)) (rotr 22 x)

/-- SHA-256 big sigma 1. -/
def bsig1 (x : Nat) : Nat := Nat.xor (Nat.xor (rotr 6 x) (rotr 11 x)) (rotr 25 x)

/-- Message-schedule extension, building the word list newest-first. -/
def wextend : Nat → List Nat → List Nat
  | 0, r => r
  | n + 1, r =>
    wextend n (w32 (ssig1 (r.getD 1 0) + r.getD 6 0 + ssig0 (r.getD 14 0) + r.getD 15 0) :: r)

/-- The 64-word message schedule of one chunk. -/
def msgSchedule (chunk : List Nat) : List Nat := (wextend 48 (bytesToWords chunk).reverse).reverse

/-- SHA-256 choice function. -/
def chv (e f g : Nat) : Nat := Nat.xor (Nat.land e f) (Nat.land (Nat.xor e 4294967295) g)

/-- SHA-256 majority function. -/
def maj (a b c : Nat) : Nat :=
  Nat.xor (Nat.xor (Nat.land a b) (Nat.land a c)) (Nat.land b c)

/-- One SHA-256 round, consuming a (round constant, schedule word) pair. -/
def round1 (st : H8) (kw : Nat × Nat) : H8 :=
  let t1 := w32 (st.h + bsig1 st.e + chv st.e st.f st.g + kw.1 + kw.2)
  let t2 := w32 (bsig0 st.a + maj st.a st.b st.c)
  ⟨w32 (t1 + t2), st.a, st.b, st.c, w32 (st.d + t1), st.e, st.f, st.g⟩

/-- Compression of one 64-byte chunk. -/
def compressChunk (st : H8) (chunk : List Nat) : H8 :=
  let r := (shaK.zip (msgSchedule chunk)).foldl round1 st
  ⟨w32 (st.a + r.a), w32 (st.b + r.b), w32 (st.c + r.c), w32 (st.d + r.d),
   w32 (st.e + r.e), w32 (st.f + r.f), w32 (st.g + r.g), w32 (st.h + r.h)⟩

/-- Serialize the final state to the 32-byte digest. -/
def outBytes (s : H8) : List Nat :=
  beBytes 4 s.a ++ beBytes 4 s.b ++ beBytes 4 s.c ++ beBytes 4 s.d ++
  beBytes 4 s.e ++ beBytes 4 s.f ++ beBytes 4 s.g ++ beBytes 4 s.h

/-- SHA-256 of a byte list (crypto/sha256 Sum256). -/
def sha256 (m : List Nat) : List Nat := outBytes ((toChunks (padMsg m)).foldl compressChunk shaIV)

/-- HMAC-SHA256 (crypto/hmac with crypto/sha256, block size 64). -/
def hmacSha256 (key msg : List Nat) : List Nat :=
  let k0 := if key.length > 64 then sha256 key else key
  let kp := k0 ++ List.replicate (64 - k0.length) 0
  sha256 ((kp.map (fun b => b ^^^ 92)) ++ sha256 ((kp.map (fun b => b ^^^ 54)) ++ msg))

/-- UTF-8 encoding of one rune (Go strings are UTF-8 byte sequences). -/
def utf8Char (c : Char) : List Nat :=
  let n := c.toNat
  if n < 128 then [n]
  else if n < 2048 then [192 + n / 64, 128 + n % 64]
  else if n < 65536 then [224 + n / 4096, 128 + (n / 64) % 64, 128 + n % 64]
  else [240 + n / 262144, 128 + (n / 4096) % 64, 128 + (n / 64) % 64, 128 + n % 64]

/-- UTF-8 bytes of a string. -/
def utf8Bytes (s : String) : List Nat := (s.data.map utf8Char).flatten

/-- Lowercase hexadecimal alphabet of encoding/hex. -/
def hexDigits : List Char := "0123456789abcdef".data

/-- One lowercase hex digit. -/
def hexDigit (n : Nat) : Char := hexDigits.getD (n % 16) '0'

/-- encoding/hex EncodeToString: two lowercase digits per byte, high nibble first. -/
def hexChars : List Nat → List Char
  | [] => []
  | b :: bs => hexDigit ((b / 16) % 16) :: hexDigit (b % 16) :: hexChars bs

/-- Hex encoding as a string. -/
def hexEncode (bs : List Nat) : String := String.mk (hexChars bs)

/-- strings.TrimSpace at the String level. -/
def goTrimSpaceStr (s : String) : String := String.mk (goTrimSpaceL s.data)

/-- strings.ToLower at the String level. -/
def goToLowerStr (s : String) : String := String.mk (toLowerL s.data)

/-- hashEmail (lines 80-90): empty input gives the empty string, otherwise
the hex HMAC-SHA256 digest, keyed by the email salt, of the trimmed and
lowercased email. -/
def hashEmail (emailSalt : String) (email : String) : String :=
  if email == "" then ""
  else hexEncode (hmacSha256 (utf8Bytes emailSalt) (utf8Bytes (goToLowerStr (goTrimSpaceStr email))))

/-- Modelled from the spec: hashIdentity(rawEmail, secret), section 4.1 of
the specification, which is absent for absent or empty input and otherwise
lowercases and trims the input before the keyed digest.  Stated from the
words of the spec (lowercase, then trim) to be compared with hashEmail. -/
def hashIdentity (secret : String) (rawEmail : String) : Option String :=
  if rawEmail = "" then none
  else some (hexEncode (hmacSha256 (utf8Bytes secret) (utf8Bytes (goTrimSpaceStr (goToLowerStr rawEmail)))))

/-! ## Nullable-scalar coercion and the export row pipeline
(src/unnamed/part_001 lines 586-813) -/

/-- database/sql NullFloat64. -/
structure NullFloat64 where
  val : Float
  valid : Bool

/-- database/sql NullInt64. -/
structure NullInt64 where
  val : Int
  valid : Bool

/-- database/sql NullBool. -/
structure NullBool where
  val : Bool
  valid : Bool

/-- A non-NULL SQLite column value produced by the export (the Go code
passes interface values to stmt.Exec; nil models SQL NULL, so a column
value is an Option SQLVal). -/
inductive SQLVal
  | text (s : String)
  | real (x : Float)
  | int (n : Int)

/-- nullStringToPtr (lines 784-789). -/
def nullStringToPtr (ns : NullString) : Option SQLVal :=
  if ns.valid then some (.text ns.str) else none

/-- nullFloat64ToPtr (lines 791-796). -/
def nullFloat64ToPtr (nf : NullFloat64) : Option SQLVal :=
  if nf.valid then some (.real nf.val) else none

/-- nullInt64ToPtr (lines 798-803). -/
def nullInt64ToPtr (ni : NullInt64) : Option SQLVal :=
  if ni.valid then some (.int ni.val) else none

/-- nullBoolToInt (lines 805-813): true maps to 1, false to 0, NULL to nil. -/
def nullBoolToInt (nb : NullBool) : Option SQLVal :=
  if nb.valid then some (.int (if nb.val then 1 else 0)) else none

/-- normalizeURL as a column value. -/
def normalizeURLVal (ns : NullString) : Option SQLVal := (normalizeURL ns).map .text

/-- One warehouse row of approved_projects as scanned (lines 637-650). -/
structure PgApprovedProject where
  recordID : NullString
  firstName : NullString
  lastName : NullString
  gitHubUsername : NullString
  geocodedCountry : NullString
  geocodedCountryCode : NullString
  playableURL : NullString
  codeURL : NullString
  hoursSpent : NullFloat64
  approvedAt : NullString
  overrideHoursJustification : NullString
  ageWhenApproved : NullInt64
  yswsName : NullString
  email : NullString

/-- One exported approved_projects row (insert statement, lines 621-628). -/
structure SqliteProjectRow where
  record_id : Option SQLVal
  first_name : Option SQLVal
  last_name : Option SQLVal
  git_hub_username : Option SQLVal
  geocoded_country : Option SQLVal
  geocoded_country_code : Option SQLVal
  playable_url : Option SQLVal
  code_url : Option SQLVal
  hours_spent : Option SQLVal
  approved_at : Option SQLVal
  override_hours_spent_justification : Option SQLVal
  age_when_approved : Option SQLVal
  ysws_name : Option SQLVal
  email_hash : Option SQLVal

/-- Per-row transformation of copyApprovedProjects (lines 656-671): hash the
email when present and non-empty, normalize the two URL columns, convert
nullable scalars. -/
def convertApprovedProject (emailSalt : String) (r : PgApprovedProject) : SqliteProjectRow where
  record_id := nullStringToPtr r.recordID
  first_name := nullStringToPtr r.firstName
  last_name := nullStringToPtr r.lastName
  git_hub_username := nullStringToPtr r.gitHubUsername
  geocoded_country := nullStringToPtr r.geocodedCountry
  geocoded_country_code := nullStringToPtr r.geocodedCountryCode
  playable_url := normalizeURLVal r.playableURL
  code_url := normalizeURLVal r.codeURL
  hours_spent := nullFloat64ToPtr r.hoursSpent
  approved_at := nullStringToPtr r.approvedAt
  override_hours_spent_justification := nullStringToPtr r.overrideHoursJustification
  age_when_approved := nullInt64ToPtr r.ageWhenApproved
  ysws_name := nullStringToPtr r.yswsName
  email_hash :=
    if r.email.valid && !(r.email.str == "") then some (.text (hashEmail emailSalt r.email.str))
    else none

/-- One warehouse row of ysws_project_mentions as scanned (lines 739-753). -/
structure PgMention where
  id : NullString
  mentionsID : NullString
  mentionSearches : NullString
  fromApproved : NullString
  recordID : NullString
  yswsApproved : NullString
  source : NullString
  linkFoundAt : NullString
  archiveURL : NullString
  url : NullString
  headline : NullString
  date : NullString
  weightedEngagement : NullFloat64
  projectURL : NullString
  engagementCount : NullInt64
  engagementType : NullString
  mentionsHackClub : NullBool
  publishedByHackClub : NullBool

/-- One exported ysws_project_mentions row (insert statement, lines 722-730). -/
structure SqliteMentionRow where
  id : Option SQLVal
  ysws_project_mentions_id : Option SQLVal
  ysws_project_mention_searches : Option SQLVal
  ysws_from_ysws_approved_project : Option SQLVal
  record_id : Option SQLVal
  ysws_approved_project : Option SQLVal
  source : Option SQLVal
  link_found_at : Option SQLVal
  archive_url : Option SQLVal
  url : Option SQLVal
  headline : Option SQLVal
  date : Option SQLVal
  weighted_engagement_points : Option SQLVal
  project_url : Option SQLVal
  engagement_count : Option SQLVal
  engagement_type : Option SQLVal
  mentions_hack_club : Option SQLVal
  published_by_hack_club : Option SQLVal

/-- Per-row transformation of copyProjectMentions (lines 759-769). -/
def convertMention (r : PgMention) : SqliteMentionRow where
  id := nullStringToPtr r.id
  ysws_project_mentions_id := nullStringToPtr r.mentionsID
  ysws_project_mention_searches := nullStringToPtr r.mentionSearches
  ysws_from_ysws_approved_project := nullStringToPtr r.fromApproved
  record_id := nullStringToPtr r.recordID
  ysws_approved_project := nullStringToPtr r.yswsApproved
  source := nullStringToPtr r.source
  link_found_at := nullStringToPtr r.linkFoundAt
  archive_url := normalizeURLVal r.archiveURL
  url := normalizeURLVal r.url
  headline := nullStringToPtr r.headline
  date := nullStringToPtr r.date
  weighted_engagement_points := nullFloat64ToPtr r.weightedEngagement
  project_url := normalizeURLVal r.projectURL
  engagement_count := nullInt64ToPtr r.engagementCount
  engagement_type := nullStringToPtr r.engagementType
  mentions_hack_club := nullBoolToInt r.mentionsHackClub
  published_by_hack_club := nullBoolToInt r.publishedByHackClub

/-! ## Cache controller and artifact generation
(src/unnamed/part_001 lines 298-484)

The mutable globals cachedCompressedPath, cacheCreatedAt, cacheTTL together
with the filesystem form the state.  Time is an integer clock (Go
nanoseconds); time.Since(t) is now - t. -/

/-- Cache-controller state: the published artifact path (empty when none),
its creation timestamp, the TTL, and the set of files existing on disk. -/
structure St where
  path : String
  createdAt : Int
  ttl : Int
  files : List String
deriving DecidableEq, Repr

/-- os.Remove. -/
def removeFile (fs : List String) (p : String) : List String := fs.filter (fun q => q != p)

/-- os.Create / os.CreateTemp: the path exists afterwards. -/
def createFile (fs : List String) (p : String) : List String := p :: fs

/-- os.Stat collapsed to existence. -/
def fileExists (fs : List String) (p : String) : Bool := fs.contains p

/-- The validity condition shared by getCachedDB (lines 328-335) and the
double-check in generateDB (lines 346-350): a non-empty published path,
within TTL, whose file still exists. -/
def cacheValid (st : St) (now : Int) : Bool :=
  !(st.path == "") && decide (now - st.createdAt ≤ st.ttl) && fileExists st.files st.path

/-- getCachedDB (lines 323-338): the fast, read-locked path.  Returns the
published path when the cache is valid, none ("needs regeneration")
otherwise.  It only reads the state (shared lock), so it is a pure
function of St. -/
def getCachedDB (st : St) (now : Int) : Option String :=
  if cacheValid st now then some st.path else none

/-- Failure points of one regeneration: the fallible steps of generateDB
(lines 359-425) and of compressWithZstd (lines 444-484). -/
inductive Stage
  | createTemp
  | openDB
  | createTables
  | copyProjects
  | copyMentions
  | zCreateOut
  | zNewEncoder
  | zOpenInput
  | zCopy
  | zClose
deriving DecidableEq, Repr

/-- Environment of one regeneration attempt: the fresh temp-file name
chosen by os.CreateTemp and the first step that fails (none on success). -/
structure GenEnv where
  tmpPath : String
  fail : Option Stage
deriving DecidableEq, Repr

/-- Filesystem events, recorded in program order. -/
inductive Ev
  | removeF (p : String)
  | createF (p : String)
  | publish (p : String)
deriving DecidableEq, Repr

/-- compressWithZstd (lines 444-484): creates inputPath + ".zst", streams
the input through the zstd encoder, and on any failure removes the
partially written output and propagates the error.  The input file is
never touched.  Returns the updated filesystem, the result, and the
event trace. -/
def compressWithZstd (fs : List String) (inputPath : String) (fail : Option Stage) :
    List String × Except Stage String × List Ev :=
  let outputPath := inputPath ++ ".zst"
  match fail with
  | some .zCreateOut => (fs, .error .zCreateOut, [])
  | some .zNewEncoder =>
    (removeFile (createFile fs outputPath) outputPath, .error .zNewEncoder,
     [.createF outputPath, .removeF outputPath])
  | some .zOpenInput =>
    (removeFile (createFile fs outputPath) outputPath, .error .zOpenInput,
     [.createF outputPath, .removeF outputPath])
  | some .zCopy =>
    (removeFile (createFile fs outputPath) outputPath, .error .zCopy,
     [.createF outputPath, .removeF outputPath])
  | some .zClose =>
    (removeFile (createFile fs outputPath) outputPath, .error .zClose,
     [.createF outputPath, .removeF outputPath])
  | _ => (createFile fs outputPath, .ok outputPath, [.createF outputPath])

/-- Result of one generateDB call: the new state, the returned value, a
flag recording whether the export pipeline actually ran (the double-check
missed, so the warehouse was pulled), and the filesystem event trace. -/
structure GenOut where
  st : St
  res : Except Stage String
  regen : Bool
  trace : List Ev
deriving Repr

/-- generateDB (lines 341-441), executed under the exclusive lock.  After
the double-check, the old cached file is removed, a temp SQLite file is
created and filled (tables, approved_projects, ysws_project_mentions),
the file is compressed, the uncompressed file is removed, and the new
path and creation time are published.  Every failure removes the temp
file and leaves the published path and timestamp unchanged. -/
def generateDB (st : St) (now : Int) (env : GenEnv) : GenOut :=
  if cacheValid st now then ⟨st, .ok st.path, false, []⟩
  else
    let fs0 := if st.path == "" then st.files else removeFile st.files st.path
    let ev0 : List Ev := if st.path == "" then [] else [.removeF st.path]
    match env.fail with
    | some .createTemp => ⟨{ st with files := fs0 }, .error .createTemp, true, ev0⟩
    | some .openDB =>
      ⟨{ st with files := removeFile (createFile fs0 env.tmpPath) env.tmpPath },
       .error .openDB, true, ev0 ++ [.createF env.tmpPath, .removeF env.tmpPath]⟩
    | some .createTables =>
      ⟨{ st with files := removeFile (createFile fs0 env.tmpPath) env.tmpPath },
       .error .createTables, true, ev0 ++ [.createF env.tmpPath, .removeF env.tmpPath]⟩
    | some .copyProjects =>
      ⟨{ st with files := removeFile (createFile fs0 env.tmpPath) env.tmpPath },
       .error .copyProjects, true, ev0 ++ [.createF env.tmpPath, .removeF env.tmpPath]⟩
    | some .copyMentions =>
      ⟨{ st with files := removeFile (createFile fs0 env.tmpPath) env.tmpPath },
       .error .copyMentions, true, ev0 ++ [.createF env.tmpPath, .removeF env.tmpPath]⟩
    | _ =>
      match compressWithZstd (createFile fs0 env.tmpPath) env.tmpPath env.fail with
      | (fs2, .error e, ev2) =>
        ⟨{ st with files := removeFile fs2 env.tmpPath }, .error e, true,
         ev0 ++ [.createF env.tmpPath] ++ ev2 ++ [.removeF env.tmpPath]⟩
      | (fs2, .ok outPath, ev2) =>
        ⟨{ path := outPath, createdAt := now, ttl := st.ttl,
           files := removeFile fs2 env.tmpPath },
         .ok outPath, true,
         ev0 ++ [.createF env.tmpPath] ++ ev2 ++ [.removeF env.tmpPath, .publish outPath]⟩

/-! ## Interleaving model of N concurrent dbHandler requests
(lines 298-319)

Each request runs getCachedDB (under the shared read lock) and, on a miss,
generateDB (under the exclusive lock).  sync.RWMutex makes each of these
two sections atomic and totally orders them, so an N-client execution is a
sequence of atomic section executions; the schedule is the arbitrary
interleaving order. -/

/-- Per-request control state: before the fast check, waiting for the
exclusive lock, or finished with the value the handler would serve
(none when generateDB returned an error, line 310-315). -/
inductive Phase
  | start
  | waiting
  | done (res : Option String)
deriving DecidableEq, Repr

/-- Global configuration of the interleaving model: cache state, number of
completed export runs, and the per-request phases. -/
structure Conf where
  st : St
  genCount : Nat
  threads : List Phase
deriving Repr

/-- Execute the next atomic section of request i.  envs assigns the
regeneration environment (temp name, failure behaviour) to each successive
export run. -/
def stepThread (envs : Nat → GenEnv) (now : Int) (c : Conf) (i : Nat) : Conf :=
  match c.threads.getD i (Phase.done none) with
  | Phase.start =>
    match getCachedDB c.st now with
    | some p => { c with threads := c.threads.set i (Phase.done (some p)) }
    | none => { c with threads := c.threads.set i Phase.waiting }
  | Phase.waiting =>
    let o := generateDB c.st now (envs c.genCount)
    { st := o.st,
      genCount := c.genCount + (if o.regen then 1 else 0),
      threads := c.threads.set i (Phase.done o.res.toOption) }
  | Phase.done _ => c

/-- Run a schedule of atomic sections. -/
def runSched (envs : Nat → GenEnv) (now : Int) (c : Conf) (sched : List Nat) : Conf :=
  sched.foldl (stepThread envs now) c

/-- Initial configuration: N requests about to run the fast check. -/
def initConf (n : Nat) (st : St) : Conf := ⟨st, 0, List.replicate n Phase.start⟩

/-- All requests finished. -/
def allDone (c : Conf) : Bool :=
  c.threads.all fun ph => match ph with | Phase.done _ => true | _ => false

/-! ## authMiddleware (lines 258-296) -/

/-- The two credential-carrying request headers. -/
structure AuthHeaders where
  authorization : String
  xApiKey : String
deriving DecidableEq, Repr

/-- strings.Split(s, " "): split at every space, keeping empty fields. -/
def splitSpace : List Char → List (List Char)
  | [] => [[]]
  | c :: t =>
    if c == ' ' then [] :: splitSpace t
    else
      match splitSpace t with
      | f :: r => (c :: f) :: r
      | [] => [[c]]

/-- Key extraction of authMiddleware (lines 260-278): a non-empty
Authorization header of the exact two-token form "bearer key" (scheme
case-insensitive) yields the second token; any other non-empty
Authorization header is used whole; otherwise the X-API-Key header. -/
def providedKeyOf (h : AuthHeaders) : String :=
  if !(h.authorization == "") then
    let parts := (splitSpace h.authorization.data).map String.mk
    if parts.length == 2 && goToLowerStr (parts.getD 0 "") == "bearer" then parts.getD 1 ""
    else h.authorization
  else if !(h.xApiKey == "") then h.xApiKey
  else ""

/-- authMiddleware decision (lines 280-294): reject an empty key, then a
constant-time comparison with the configured API key; crypto/subtle
ConstantTimeCompare returns 1 exactly on byte-wise equality. -/
def authMiddleware (h : AuthHeaders) (apiKey : String) : Bool :=
  let k := providedKeyOf h
  if k == "" then false else k == apiKey

/-- Modelled from the spec: the host segment of a URL, the part after the
scheme separator and before the first slash (section 4.1 speaks of "the
host segment matches a known code-hosting domain"; the code has no such
notion, so it is modelled here from the words of the spec for comparison). -/
def specHost (s : String) : String :=
  let l :=
    if leadsWith "https://".data s.data then s.data.drop 8
    else if leadsWith "http://".data s.data then s.data.drop 7
    else s.data
  String.mk (l.takeWhile (fun c => !(c == '/')))

instance : DecidableEq (Except Stage String) := fun a b =>
  match a, b with
  | .ok x, .ok y =>
    if h : x = y then isTrue (by rw [h]) else isFalse (fun hh => h (Except.ok.inj hh))
  | .error x, .error y =>
    if h : x = y then isTrue (by rw [h]) else isFalse (fun hh => h (Except.error.inj hh))
  | .ok _, .error _ => isFalse (fun hh => Except.noConfusion hh)
  | .error _, .ok _ => isFalse (fun hh => Except.noConfusion hh)

/-- Lists all of whose characters are non-whitespace. -/
def NoSpace (l : List Char) : Prop := ∀ c ∈ l, goIsSpace c = false

/-- Lists all of whose characters are fixed by case folding. -/
def LowerFixed (l : List Char) : Prop := ∀ c ∈ l, lowerChar c = c

/-- Invariant of the interleaving model: either no export has run yet, the
cache state is untouched and every request is still running, or exactly
one export has run, the published state is the one it produced, and every
finished request got its artifact path. -/
def cfgInv (st0 : St) (now : Int) (envs : Nat → GenEnv) (c : Conf) : Prop :=
  (c.genCount = 0 ∧ c.st = st0 ∧ ∀ ph ∈ c.threads, ph = Phase.start ∨ ph = Phase.waiting) ∨
  (c.genCount = 1 ∧ c.st = (generateDB st0 now (envs 0)).st ∧
    ∀ ph ∈ c.threads, ph = Phase.start ∨ ph = Phase.waiting ∨
      ph = Phase.done (some ((envs 0).tmpPath ++ ".zst")))

/-- The exact two-token bearer form tested by authMiddleware (line 268). -/
def bearerForm (auth : String) : Bool :=
  let parts := (splitSpace auth.data).map String.mk
  parts.length == 2 && goToLowerStr (parts.getD 0 "") == "bearer"

/-! ## Supporting lemmas: characters and lists -/

/-- Char.ofNat round-trips on valid code points. -/
theorem toNat_ofNat_valid (n : Nat) (h : n.isValidChar) : (Char.ofNat n).toNat = n := by
  simp [Char.ofNat, h]
  rfl

/-- Case folding is idempotent. -/
theorem lowerChar_lowerChar (c : Char) : lowerChar (lowerChar c) = lowerChar c := by
  unfold lowerChar
  by_cases h : 65 ≤ c.toNat ∧ c.toNat ≤ 90
  · rw [if_pos h]
    have hv : (c.toNat + 32).isValidChar := Or.inl (by omega)
    rw [if_neg]
    rw [toNat_ofNat_valid _ hv]
    omega
  · rw [if_neg h, if_neg h]

/-- Case folding does not create or destroy whitespace. -/
theorem goIsSpace_lowerChar (c : Char) : goIsSpace (lowerChar c) = goIsSpace c := by
  unfold lowerChar goIsSpace
  by_cases h : 65 ≤ c.toNat ∧ c.toNat ≤ 90
  · rw [if_pos h]
    have hv : (c.toNat + 32).isValidChar := Or.inl (by omega)
    rw [toNat_ofNat_valid _ hv]
    have h9 : (c.toNat + 32 == 9) = false := by simp only [beq_eq_false_iff_ne, ne_eq]; omega
    have h10 : (c.toNat + 32 == 10) = false := by simp only [beq_eq_false_iff_ne, ne_eq]; omega
    have h11 : (c.toNat + 32 == 11) = false := by simp only [beq_eq_false_iff_ne, ne_eq]; omega
    have h12 : (c.toNat + 32 == 12) = false := by simp only [beq_eq_false_iff_ne, ne_eq]; omega
    have h13 : (c.toNat + 32 == 13) = false := by simp only [beq_eq_false_iff_ne, ne_eq]; omega
    have h32 : (c.toNat + 32 == 32) = false := by simp only [beq_eq_false_iff_ne, ne_eq]; omega
    have h133 : (c.toNat + 32 == 133) = false := by simp only [beq_eq_false_iff_ne, ne_eq]; omega
    have h160 : (c.toNat + 32 == 160) = false := by simp only [beq_eq_false_iff_ne, ne_eq]; omega
    have g9 : (c.toNat == 9) = false := by simp only [beq_eq_false_iff_ne, ne_eq]; omega
    have g10 : (c.toNat == 10) = false := by simp only [beq_eq_false_iff_ne, ne_eq]; omega
    have g11 : (c.toNat == 11) = false := by simp only [beq_eq_false_iff_ne, ne_eq]; omega
    have g12 : (c.toNat == 12) = false := by simp only [beq_eq_false_iff_ne, ne_eq]; omega
    have g13 : (c.toNat == 13) = false := by simp only [beq_eq_false_iff_ne, ne_eq]; omega
    have g32 : (c.toNat == 32) = false := by simp only [beq_eq_false_iff_ne, ne_eq]; omega
    have g133 : (c.toNat == 133) = false := by simp only [beq_eq_false_iff_ne, ne_eq]; omega
    have g160 : (c.toNat == 160) = false := by simp only [beq_eq_false_iff_ne, ne_eq]; omega
    rw [h9, h10, h11, h12, h13, h32, h133, h160, g9, g10, g11, g12, g13, g32, g133, g160]
  · rw [if_neg h]

/-- dropWhile is the identity when no character matches. -/
theorem dropWhile_of_none (p : Char → Bool) (l : List Char) (h : ∀ c ∈ l, p c = false) :
    l.dropWhile p = l := by
  cases l with
  | nil => rfl
  | cons c t =>
    rw [List.dropWhile_cons, h c (List.mem_cons_self c t)]
    simp

/-- TrimSpace is the identity on whitespace-free lists. -/
theorem goTrimSpaceL_of_noSpace (l : List Char) (h : NoSpace l) : goTrimSpaceL l = l := by
  unfold goTrimSpaceL
  rw [dropWhile_of_none _ _ h]
  rw [dropWhile_of_none _ _ (fun c hc => h c (List.mem_reverse.mp hc))]
  exact List.reverse_reverse l

/-- Whitespace removal is the identity on whitespace-free lists. -/
theorem stripSpaces_of_noSpace (l : List Char) (h : NoSpace l) : stripSpaces l = l := by
  unfold stripSpaces
  exact List.filter_eq_self.mpr (fun c hc => by rw [h c hc]; rfl)

/-- Lowercasing is the identity on case-fixed lists. -/
theorem toLowerL_of_lowerFixed (l : List Char) (h : LowerFixed l) : toLowerL l = l := by
  unfold toLowerL
  rw [List.map_congr_left h]
  exact List.map_id l

/-- Whitespace removal leaves only non-whitespace characters. -/
theorem noSpace_stripSpaces (l : List Char) : NoSpace (stripSpaces l) := by
  intro c hc
  have := List.mem_filter.mp hc
  simpa using this.2

/-- Lowercasing preserves absence of whitespace. -/
theorem noSpace_toLowerL (l : List Char) (h : NoSpace l) : NoSpace (toLowerL l) := by
  intro c hc
  obtain ⟨d, hd, rfl⟩ := List.mem_map.mp hc
  rw [goIsSpace_lowerChar]
  exact h d hd

/-- Every character of a lowercased list is fixed by case folding. -/
theorem lowerFixed_toLowerL (l : List Char) : LowerFixed (toLowerL l) := by
  intro c hc
  obtain ⟨d, _, rfl⟩ := List.mem_map.mp hc
  exact lowerChar_lowerChar d

/-- Membership after trimming trailing slashes. -/
theorem mem_trimRightSlash (l : List Char) (c : Char) (h : c ∈ trimRightSlash l) : c ∈ l := by
  unfold trimRightSlash at h
  have h1 := List.mem_reverse.mp h
  exact List.mem_reverse.mp ((List.dropWhile_sublist _).mem h1)

/-- Membership after trimming a .git suffix. -/
theorem mem_trimSuffixGit (l : List Char) (c : Char) (h : c ∈ trimSuffixGit l) : c ∈ l := by
  unfold trimSuffixGit at h
  by_cases hg : endsWithL ".git".data l
  · rw [if_pos hg] at h
    exact (List.take_sublist _ _).mem h
  · rwa [if_neg hg] at h

/-- Membership after the github /tree/ cut. -/
theorem mem_gitTreeCut (l : List Char) (c : Char) (h : c ∈ gitTreeCut l) : c ∈ l := by
  unfold gitTreeCut at h
  by_cases hg : containsSub "github.com/".data l
  · rw [if_pos hg] at h
    cases hidx : indexOfSub "/tree/".data l with
    | none => rwa [hidx] at h
    | some i =>
      rw [hidx] at h
      exact (List.take_sublist _ _).mem h
  · rwa [if_neg hg] at h

/-- A list matching a pattern still matches after appending. -/
theorem leadsWith_append (p l r : List Char) (h : leadsWith p l = true) :
    leadsWith p (l ++ r) = true := by
  induction p generalizing l with
  | nil => rfl
  | cons a ps ih =>
    cases l with
    | nil => simp [leadsWith] at h
    | cons c t =>
      simp only [leadsWith, Bool.and_eq_true] at h
      simp only [List.cons_append, leadsWith, Bool.and_eq_true]
      exact ⟨h.1, ih t h.2⟩

/-- Characters below the first occurrence of a non-empty pattern do not
contain the pattern. -/
theorem indexOfSub_take (pat l : List Char) (i : Nat) (hp : pat ≠ [])
    (h : indexOfSub pat l = some i) : indexOfSub pat (l.take i) = none := by
  induction l generalizing i with
  | nil =>
    unfold indexOfSub at h
    cases pat with
    | nil => exact absurd rfl hp
    | cons a ps => simp [leadsWith] at h
  | cons c t ih =>
    unfold indexOfSub at h
    by_cases hl : leadsWith pat (c :: t) = true
    · rw [if_pos hl] at h
      cases h
      cases pat with
      | nil => exact absurd rfl hp
      | cons a ps => simp [indexOfSub, leadsWith]
    · rw [if_neg hl] at h
      obtain ⟨j, hj, rfl⟩ := Option.map_eq_some'.mp h
      rw [List.take_succ_cons]
      unfold indexOfSub
      have hlt : leadsWith pat (c :: t.take j) = false := by
        by_contra hcon
        apply hl
        have hcon2 : leadsWith pat (c :: t.take j) = true := by
          revert hcon
          cases leadsWith pat (c :: t.take j) <;> simp
        have := leadsWith_append pat (c :: t.take j) (t.drop j) hcon2
        rwa [List.cons_append, List.take_append_drop] at this
      rw [if_neg (by rw [hlt]; exact Bool.false_ne_true)]
      rw [ih j hj]
      rfl

/-- The output of the github /tree/ cut never contains both "github.com/"
and "/tree/". -/
theorem gitTreeCut_no_tree (l : List Char)
    (h : containsSub "github.com/".data (gitTreeCut l) = true) :
    containsSub "/tree/".data (gitTreeCut l) = false := by
  unfold gitTreeCut at h ⊢
  by_cases hg : containsSub "github.com/".data l
  · rw [if_pos hg] at h ⊢
    cases hidx : indexOfSub "/tree/".data l with
    | none =>
      show containsSub "/tree/".data l = false
      simp [containsSub, hidx]
    | some i =>
      show containsSub "/tree/".data (l.take i) = false
      unfold containsSub
      rw [indexOfSub_take _ _ _ (by decide) hidx]
      rfl
  · rw [if_neg hg] at h
    exact absurd h hg

/-- Scheme defaulting preserves absence of whitespace. -/
theorem noSpace_schemeDefault (l : List Char) (h : NoSpace l) : NoSpace (schemeDefault l) := by
  unfold schemeDefault
  split
  · intro c hc
    rcases List.mem_append.mp hc with hc | hc
    · fin_cases hc <;> decide
    · exact h c hc
  · exact h

/-- Scheme defaulting preserves case-fixedness. -/
theorem lowerFixed_schemeDefault (l : List Char) (h : LowerFixed l) :
    LowerFixed (schemeDefault l) := by
  unfold schemeDefault
  split
  · intro c hc
    rcases List.mem_append.mp hc with hc | hc
    · fin_cases hc <;> decide
    · exact h c hc
  · exact h

/-- The normalization pipeline keeps its input properties and never emits
both "github.com/" and "/tree/". -/
theorem normPipeline_props (l : List Char) (h1 : NoSpace l) (h2 : LowerFixed l) :
    NoSpace (normPipeline l) ∧ LowerFixed (normPipeline l) ∧
    (containsSub "github.com/".data (normPipeline l) = true →
      containsSub "/tree/".data (normPipeline l) = false) := by
  have hmem : ∀ c ∈ normPipeline l, c ∈ schemeDefault l := by
    intro c hc
    exact mem_trimRightSlash _ _ (mem_trimSuffixGit _ _ (mem_gitTreeCut _ _ hc))
  refine ⟨?_, ?_, ?_⟩
  · intro c hc
    exact noSpace_schemeDefault l h1 c (hmem c hc)
  · intro c hc
    exact lowerFixed_schemeDefault l h2 c (hmem c hc)
  · exact gitTreeCut_no_tree _

/-- normalizeURL with its local abbreviations expanded. -/
theorem normalizeURL_eq (ns : NullString) :
    normalizeURL ns =
      if !ns.valid || ns.str == "" then none
      else if dangerousSchemes.any
          (fun sch => leadsWith sch.data (toLowerL (stripSpaces (goTrimSpaceL ns.str.data)))) then none
      else if (normPipeline (toLowerL (stripSpaces (goTrimSpaceL ns.str.data)))).isEmpty then none
      else some (String.mk (normPipeline (toLowerL (stripSpaces (goTrimSpaceL ns.str.data))))) := rfl

/-- Every present result of normalizeURL is a non-empty, whitespace-free,
case-fixed string that does not contain both "github.com/" and "/tree/". -/
theorem normalizeURL_out (ns : NullString) (u : String) (h : normalizeURL ns = some u) :
    NoSpace u.data ∧ LowerFixed u.data ∧ u.data ≠ [] ∧
    (containsSub "github.com/".data u.data = true →
      containsSub "/tree/".data u.data = false) := by
  rw [normalizeURL_eq] at h
  split at h
  · exact absurd h (by simp)
  · split at h
    · exact absurd h (by simp)
    · split at h
      · exact absurd h (by simp)
      · rename_i hvalid hsch hempty
        have hu : u.data = normPipeline (toLowerL (stripSpaces (goTrimSpaceL ns.str.data))) := by
          have := Option.some.inj h
          rw [← this]
        have hp := normPipeline_props (toLowerL (stripSpaces (goTrimSpaceL ns.str.data)))
          (noSpace_toLowerL _ (noSpace_stripSpaces _)) (lowerFixed_toLowerL _)
        rw [← hu] at hp
        refine ⟨hp.1, hp.2.1, ?_, hp.2.2⟩
        rw [hu]
        intro hnil
        rw [hnil] at hempty
        exact hempty rfl

/-- A list matching a cons pattern starts with the pattern head. -/
theorem leadsWith_head (p : Char) (ps l : List Char) (h : leadsWith (p :: ps) l = true) :
    ∃ t, l = p :: t := by
  cases l with
  | nil => simp [leadsWith] at h
  | cons c t =>
    simp only [leadsWith, Bool.and_eq_true, beq_iff_eq] at h
    exact ⟨t, by rw [h.1]⟩

/-- A string starting with http:// or https:// matches no dangerous scheme. -/
theorem dangerous_of_scheme (l : List Char)
    (h : leadsWith "http://".data l = true ∨ leadsWith "https://".data l = true) :
    dangerousSchemes.any (fun sch => leadsWith sch.data l) = false := by
  have hh : ∃ t, l = 'h' :: t := by
    have e1 : "http://".data = 'h' :: "ttp://".data := by decide
    have e2 : "https://".data = 'h' :: "ttps://".data := by decide
    rcases h with h | h
    · rw [e1] at h
      exact leadsWith_head _ _ _ h
    · rw [e2] at h
      exact leadsWith_head _ _ _ h
  obtain ⟨t, rfl⟩ := hh
  have ej : "javascript:".data = 'j' :: "avascript:".data := by decide
  have ed : "data:".data = 'd' :: "ata:".data := by decide
  have ev : "vbscript:".data = 'v' :: "bscript:".data := by decide
  have ef : "file:".data = 'f' :: "ile:".data := by decide
  have hj : (('j' : Char) == 'h') = false := by decide
  have hd : (('d' : Char) == 'h') = false := by decide
  have hv : (('v' : Char) == 'h') = false := by decide
  have hf : (('f' : Char) == 'h') = false := by decide
  simp [dangerousSchemes, ej, ed, ev, ef, leadsWith, hj, hd, hv, hf]

/-- Scheme defaulting is the identity on strings that already carry a scheme. -/
theorem schemeDefault_of_scheme (l : List Char)
    (h : leadsWith "http://".data l = true ∨ leadsWith "https://".data l = true) :
    schemeDefault l = l := by
  unfold schemeDefault
  rcases h with h | h <;> simp [h]

/-- Trailing-slash trimming is the identity when the list does not end in a slash. -/
theorem trimRightSlash_of_not_slash (l : List Char) (h : endsWithL "/".data l = false) :
    trimRightSlash l = l := by
  unfold trimRightSlash
  unfold endsWithL at h
  cases hr : l.reverse with
  | nil =>
    have : l = [] := by
      have := congrArg List.reverse hr
      simpa using this
    rw [this]
    rfl
  | cons c t =>
    rw [hr] at h
    have e : ("/".data).reverse = ['/'] := by decide
    rw [e] at h
    simp only [leadsWith, Bool.and_true] at h
    have hc : (c == '/') = false := by
      have hne : ¬ c = '/' := by
        intro hcc
        rw [hcc] at h
        simp at h
      simpa using hne
    rw [List.dropWhile_cons]
    simp only [hc]
    simp only [Bool.false_eq_true, if_false]
    rw [← hr, List.reverse_reverse]

/-- Suffix trimming is the identity when the suffix is absent. -/
theorem trimSuffixGit_of_not (l : List Char) (h : endsWithL ".git".data l = false) :
    trimSuffixGit l = l := by
  simp [trimSuffixGit, h]

/-- The /tree/ cut is the identity when the invariant excludes a match. -/
theorem gitTreeCut_of_no_tree (l : List Char)
    (h : containsSub "github.com/".data l = true → containsSub "/tree/".data l = false) :
    gitTreeCut l = l := by
  unfold gitTreeCut
  by_cases hg : containsSub "github.com/".data l = true
  · rw [if_pos hg]
    have := h hg
    unfold containsSub at this
    cases hidx : indexOfSub "/tree/".data l with
    | none => rfl
    | some i =>
      rw [hidx] at this
      simp at this
  · rw [if_neg (by simpa using hg)]

/-- C5 (counterexample): normalizeURL is not idempotent.  One pass over
"https://x.git.git" strips a single .git suffix, and renormalizing the
result strips another; similar failures arise when the /tree/ cut leaves a
trailing slash and when slash-trimming eats into a bare scheme. -/
theorem normalizeURL_idem_cex :
    normalizeURL ⟨"https://x.git.git", true⟩ = some "https://x.git" ∧
    normalizeURL ⟨"https://x.git", true⟩ = some "https://x" ∧
    (normalizeURL ⟨"https://x.git.git", true⟩).bind (fun v => normalizeURL ⟨v, true⟩) ≠
      normalizeURL ⟨"https://x.git.git", true⟩ ∧
    normalizeURL ⟨"https://github.com//tree/x", true⟩ = some "https://github.com/" ∧
    normalizeURL ⟨"https://github.com/", true⟩ = some "https://github.com" ∧
    normalizeURL ⟨"https://", true⟩ = some "https:" ∧
    normalizeURL ⟨"https:", true⟩ = some "https://https:" := by
  decide

/-- C5 (amended): renormalizing a normalizeURL result is the identity
provided the result still carries an http:// or https:// scheme and does
not end in a slash or in ".git" (the counterexamples show each of these
side conditions is necessary). -/
theorem normalizeURL_idem_cond (s u : String)
    (h : normalizeURL ⟨s, true⟩ = some u)
    (hpre : leadsWith "http://".data u.data = true ∨ leadsWith "https://".data u.data = true)
    (hslash : endsWithL "/".data u.data = false)
    (hgit : endsWithL ".git".data u.data = false) :
    normalizeURL ⟨u, true⟩ = some u := by
  obtain ⟨hns, hlf, hne, htree⟩ := normalizeURL_out _ _ h
  have hbeq : (u == "") = false := by
    have hu : ¬ u = "" := by
      intro hu
      apply hne
      rw [hu]
    simpa using hu
  have e1 : goTrimSpaceL u.data = u.data := goTrimSpaceL_of_noSpace _ hns
  have e2 : stripSpaces u.data = u.data := stripSpaces_of_noSpace _ hns
  have e3 : toLowerL u.data = u.data := toLowerL_of_lowerFixed _ hlf
  have epipe : normPipeline u.data = u.data := by
    unfold normPipeline
    rw [schemeDefault_of_scheme _ hpre, trimRightSlash_of_not_slash _ hslash,
      trimSuffixGit_of_not _ hgit, gitTreeCut_of_no_tree _ htree]
  have hie : u.data.isEmpty = false := by
    cases hd : u.data with
    | nil => exact absurd hd hne
    | cons c t => rfl
  rw [normalizeURL_eq]
  simp only [show (⟨u, true⟩ : NullString).valid = true from rfl,
    show (⟨u, true⟩ : NullString).str = u from rfl, hbeq, Bool.not_true, Bool.false_or,
    Bool.false_eq_true, if_false, e1, e2, e3, dangerous_of_scheme _ hpre, epipe, hie]

/-- C5 (witness): the amended idempotence theorem at a concrete input. -/
theorem normalizeURL_idem_cond_witness :
    normalizeURL ⟨"https://github.com/user/repo", true⟩ = some "https://github.com/user/repo" :=
  normalizeURL_idem_cond "GitHub.com/User/Repo " "https://github.com/user/repo"
    (by decide) (by decide) (by decide) (by decide)

/-- C6: every present input whose whitespace-stripped lowercased form
starts with one of the dangerous schemes (javascript:, data:, vbscript:,
file:) is rejected by normalizeURL; the stripping and lowercasing make the
check case- and whitespace-insensitive. -/
theorem normalizeURL_dangerous (s : String)
    (h : dangerousSchemes.any
        (fun sch => leadsWith sch.data (toLowerL (stripSpaces (goTrimSpaceL s.data)))) = true) :
    normalizeURL ⟨s, true⟩ = none := by
  by_cases hs : s = ""
  · subst hs
    exact absurd h (by decide)
  · have hbeq : (s == "") = false := by simpa using hs
    rw [normalizeURL_eq]
    simp only [show (⟨s, true⟩ : NullString).valid = true from rfl,
      show (⟨s, true⟩ : NullString).str = s from rfl, hbeq, Bool.not_true, Bool.false_or,
      Bool.false_eq_true, if_false, h, if_true]

/-- C6 (witness): normalizeURL("javascript:alert(1)") is absent, and so are
mixed-case and whitespace-interleaved variants. -/
theorem normalizeURL_dangerous_witness :
    normalizeURL ⟨"javascript:alert(1)", true⟩ = none ∧
    normalizeURL ⟨"JavaScript:alert(1)", true⟩ = none ∧
    normalizeURL ⟨"java script:alert(1)", true⟩ = none :=
  ⟨normalizeURL_dangerous "javascript:alert(1)" (by decide),
   normalizeURL_dangerous "JavaScript:alert(1)" (by decide),
   normalizeURL_dangerous "java script:alert(1)" (by decide)⟩

/-- C7 (counterexample): the /tree/ cut is keyed on the substring
"github.com/" anywhere in the URL, not on the host segment: the host of
this URL is evil.com, not a code-hosting domain, yet the URL is truncated
at /tree/. -/
theorem normalizeURL_tree_not_host_based :
    normalizeURL ⟨"https://evil.com/github.com/tree/main/src", true⟩ =
      some "https://evil.com/github.com" ∧
    specHost "https://evil.com/github.com/tree/main/src" = "evil.com" ∧
    "evil.com" ≠ "github.com" := by
  decide

/-- C7 (amended): normalizeURL truncates at the first /tree/ segment
exactly when the URL contains the substring "github.com/" anywhere (not
only as its host); a /blob/ path without /tree/ is untouched, while a
/tree/ occurring after /blob/ is still truncated.  Consequently no present
result contains both "github.com/" and "/tree/". -/
theorem normalizeURL_treeCut_spec :
    (∀ s u, normalizeURL ⟨s, true⟩ = some u →
        containsSub "github.com/".data u.data = true →
        containsSub "/tree/".data u.data = false) ∧
    normalizeURL ⟨"https://github.com/user/repo/tree/main/src", true⟩ =
      some "https://github.com/user/repo" ∧
    normalizeURL ⟨"https://github.com/user/repo/blob/main/src/file.txt", true⟩ =
      some "https://github.com/user/repo/blob/main/src/file.txt" ∧
    normalizeURL ⟨"https://evil.com/github.com/tree/main/src", true⟩ =
      some "https://evil.com/github.com" ∧
    normalizeURL ⟨"https://github.com/u/r/blob/main/tree/z", true⟩ =
      some "https://github.com/u/r/blob/main" := by
  refine ⟨?_, by decide, by decide, by decide, by decide⟩
  intro s u h hg
  exact (normalizeURL_out _ _ h).2.2.2 hg

/-- C7 (witness): the general no-tree-after-cut part at a concrete input. -/
theorem normalizeURL_treeCut_witness :
    containsSub "/tree/".data ("https://github.com/user/repo" : String).data = false :=
  normalizeURL_treeCut_spec.1 "https://github.com/user/repo/tree/main"
    "https://github.com/user/repo" (by decide) (by decide)

/-- dropWhile on whitespace commutes with case folding. -/
theorem dropWhile_space_toLower (l : List Char) :
    (toLowerL l).dropWhile goIsSpace = toLowerL (l.dropWhile goIsSpace) := by
  induction l with
  | nil => rfl
  | cons c t ih =>
    show (lowerChar c :: toLowerL t).dropWhile goIsSpace = _
    rw [List.dropWhile_cons, List.dropWhile_cons, goIsSpace_lowerChar]
    by_cases h : goIsSpace c = true
    · rw [h]
      simpa using ih
    · have h2 : goIsSpace c = false := by
        revert h
        cases goIsSpace c <;> simp
      rw [h2]
      simp [toLowerL]

/-- TrimSpace commutes with case folding. -/
theorem goTrimSpaceL_toLower (l : List Char) :
    goTrimSpaceL (toLowerL l) = toLowerL (goTrimSpaceL l) := by
  unfold goTrimSpaceL
  rw [dropWhile_space_toLower]
  show ((toLowerL (l.dropWhile goIsSpace)).reverse.dropWhile goIsSpace).reverse = _
  rw [show (toLowerL (l.dropWhile goIsSpace)).reverse = toLowerL (l.dropWhile goIsSpace).reverse from
    (List.map_reverse _ _).symm]
  rw [dropWhile_space_toLower]
  rw [show (toLowerL ((l.dropWhile goIsSpace).reverse.dropWhile goIsSpace)).reverse =
      toLowerL ((l.dropWhile goIsSpace).reverse.dropWhile goIsSpace).reverse from
    (List.map_reverse _ _).symm]

/-- beBytes produces exactly k bytes. -/
theorem beBytes_length (k n : Nat) : (beBytes k n).length = k := by
  induction k generalizing n with
  | zero => rfl
  | succ k ih => simp [beBytes, ih]

/-- The serialized SHA-256 state is 32 bytes. -/
theorem outBytes_length (s : H8) : (outBytes s).length = 32 := by
  simp [outBytes, beBytes_length]

/-- SHA-256 digests are 32 bytes for every message. -/
theorem sha256_length (m : List Nat) : (sha256 m).length = 32 := by
  simp [sha256, outBytes_length]

/-- HMAC-SHA256 digests are 32 bytes. -/
theorem hmacSha256_length (key msg : List Nat) : (hmacSha256 key msg).length = 32 :=
  sha256_length _

/-- Hex encoding doubles the byte count. -/
theorem hexChars_length (bs : List Nat) : (hexChars bs).length = 2 * bs.length := by
  induction bs with
  | nil => rfl
  | cons b bs ih =>
    simp [hexChars, ih]
    omega

/-- Every hex digit is drawn from the lowercase hex alphabet. -/
theorem hexDigit_mem (n : Nat) : hexDigit n ∈ hexDigits := by
  unfold hexDigit
  have h : n % 16 < 16 := Nat.mod_lt _ (by norm_num)
  have hlen : hexDigits.length = 16 := rfl
  rw [List.getD_eq_getElem _ _ (by omega)]
  exact List.getElem_mem _

/-- Every character of a hex encoding is a lowercase hex digit. -/
theorem hexChars_mem (bs : List Nat) : ∀ c ∈ hexChars bs, c ∈ hexDigits := by
  induction bs with
  | nil => simp [hexChars]
  | cons b bs ih =>
    intro c hc
    simp only [hexChars, List.mem_cons] at hc
    rcases hc with rfl | rfl | hc
    · exact hexDigit_mem _
    · exact hexDigit_mem _
    · exact ih c hc

set_option maxRecDepth 1000000

/-- Sanity: the embedded SHA-256 reproduces the FIPS 180 test vector. -/
theorem sha256_vector_abc :
    hexEncode (sha256 [97, 98, 99]) =
      "ba7816bf8f01cfea414140de5dae2223b00361a396177a9cb410ff61f20015ad" := by
  decide

/-- Sanity: the embedded HMAC-SHA256 reproduces the RFC 4231 test vector. -/
theorem hmacSha256_vector_rfc4231 :
    hexEncode (hmacSha256 (List.replicate 20 11) [72, 105, 32, 84, 104, 101, 114, 101]) =
      "b0344c61d8db38535ca8afceaf0bf12b881dc200c9833da726e9376c2e32cff7" := by
  decide

/-- hashEmail of a non-empty email is 64 characters long. -/
theorem hashEmail_length (salt e : String) (he : e ≠ "") : (hashEmail salt e).length = 64 := by
  have hbeq : (e == "") = false := by simpa using he
  unfold hashEmail
  rw [hbeq]
  show (hexChars (hmacSha256 _ _)).length = 64
  rw [hexChars_length, hmacSha256_length]

/-- hashEmail of a non-empty email is all lowercase hex digits. -/
theorem hashEmail_hexdigits (salt e : String) (he : e ≠ "") :
    ∀ c ∈ (hashEmail salt e).data, c ∈ hexDigits := by
  have hbeq : (e == "") = false := by simpa using he
  unfold hashEmail
  rw [hbeq]
  show ∀ c ∈ hexChars (hmacSha256 _ _), c ∈ hexDigits
  exact hexChars_mem _

/-- C4: hashEmail is absent (the empty string, stored as NULL) for empty
input; for every non-empty email and fixed salt it is the lowercase-hex
HMAC-SHA256 digest, keyed by the salt, of the whitespace-trimmed
lowercased email, agreeing with hashIdentity of the spec; it depends only
on the normalized email (determinism); and the email_hash column of every
exported row is either NULL or a 64-character hex digest, never the raw
email. -/
theorem hashEmail_spec (salt e : String) (he : e ≠ "") :
    hashEmail salt "" = "" ∧
    hashEmail salt e =
      hexEncode (hmacSha256 (utf8Bytes salt) (utf8Bytes (goToLowerStr (goTrimSpaceStr e)))) ∧
    hashIdentity salt e = some (hashEmail salt e) ∧
    (hashEmail salt e).length = 64 ∧
    (∀ c ∈ (hashEmail salt e).data, c ∈ hexDigits) ∧
    (∀ d : String, d ≠ "" → goToLowerStr (goTrimSpaceStr d) = goToLowerStr (goTrimSpaceStr e) →
      hashEmail salt d = hashEmail salt e) ∧
    (∀ r : PgApprovedProject, (convertApprovedProject salt r).email_hash = none ∨
      ∃ hx : String, (convertApprovedProject salt r).email_hash = some (SQLVal.text hx) ∧
        hx.length = 64 ∧ ∀ c ∈ hx.data, c ∈ hexDigits) := by
  have hbeq : (e == "") = false := by simpa using he
  have hcomm : ∀ f : String, goTrimSpaceStr (goToLowerStr f) = goToLowerStr (goTrimSpaceStr f) := by
    intro f
    show String.mk (goTrimSpaceL (toLowerL f.data)) = String.mk (toLowerL (goTrimSpaceL f.data))
    rw [goTrimSpaceL_toLower]
  have hval : hashEmail salt e =
      hexEncode (hmacSha256 (utf8Bytes salt) (utf8Bytes (goToLowerStr (goTrimSpaceStr e)))) := by
    unfold hashEmail
    rw [hbeq]
    rfl
  refine ⟨rfl, hval, ?_, hashEmail_length salt e he, hashEmail_hexdigits salt e he, ?_, ?_⟩
  · unfold hashIdentity
    rw [if_neg he, hval, hcomm]
  · intro d hd hnorm
    have hdbeq : (d == "") = false := by simpa using hd
    unfold hashEmail
    rw [hbeq, hdbeq, hnorm]
  · intro r
    unfold convertApprovedProject
    by_cases hcond : (r.email.valid && !(r.email.str == "")) = true
    · right
      refine ⟨hashEmail salt r.email.str, ?_, ?_, ?_⟩
      · simp only [hcond, if_true]
      · have hne : r.email.str ≠ "" := by
          have h2 := (Bool.and_eq_true _ _).mp hcond
          intro hs
          rw [hs] at h2
          simpa using h2.2
        exact hashEmail_length salt _ hne
      · have hne : r.email.str ≠ "" := by
          have h2 := (Bool.and_eq_true _ _).mp hcond
          intro hs
          rw [hs] at h2
          simpa using h2.2
        exact hashEmail_hexdigits salt _ hne
    · left
      have hcond2 : (r.email.valid && !(r.email.str == "")) = false := by
        revert hcond
        cases r.email.valid && !(r.email.str == "") <;> simp
      simp only [hcond2, Bool.false_eq_true, if_false]

/-- C4 (witness): the hash theorem at a concrete email and salt. -/
theorem hashEmail_spec_witness :
    ("Alice@Example.COM" : String) ≠ "" ∧ (hashEmail "salt0" "Alice@Example.COM").length = 64 :=
  ⟨by decide, (hashEmail_spec "salt0" "Alice@Example.COM" (by decide)).2.2.2.1⟩

/-- C8: a warehouse NULL maps to a NULL output value in every column of
both exported tables, independently of all other fields and of the junk
payload the scanner leaves in an invalid null-struct; in particular the
0/1 boolean-flag columns store NULL for a NULL boolean (and 1/0 for
true/false), never coercing NULL to zero, the empty string, or false. -/
theorem null_maps_to_null (salt : String) (p : PgApprovedProject) (m : PgMention)
    (z : String) (x : Float) (n : Int) (b : Bool) :
    ((convertApprovedProject salt { p with recordID := ⟨z, false⟩ }).record_id = none) ∧
    ((convertApprovedProject salt { p with firstName := ⟨z, false⟩ }).first_name = none) ∧
    ((convertApprovedProject salt { p with lastName := ⟨z, false⟩ }).last_name = none) ∧
    ((convertApprovedProject salt { p with gitHubUsername := ⟨z, false⟩ }).git_hub_username = none) ∧
    ((convertApprovedProject salt { p with geocodedCountry := ⟨z, false⟩ }).geocoded_country = none) ∧
    ((convertApprovedProject salt { p with geocodedCountryCode := ⟨z, false⟩ }).geocoded_country_code = none) ∧
    ((convertApprovedProject salt { p with playableURL := ⟨z, false⟩ }).playable_url = none) ∧
    ((convertApprovedProject salt { p with codeURL := ⟨z, false⟩ }).code_url = none) ∧
    ((convertApprovedProject salt { p with hoursSpent := ⟨x, false⟩ }).hours_spent = none) ∧
    ((convertApprovedProject salt { p with approvedAt := ⟨z, false⟩ }).approved_at = none) ∧
    ((convertApprovedProject salt { p with overrideHoursJustification := ⟨z, false⟩ }).override_hours_spent_justification = none) ∧
    ((convertApprovedProject salt { p with ageWhenApproved := ⟨n, false⟩ }).age_when_approved = none) ∧
    ((convertApprovedProject salt { p with yswsName := ⟨z, false⟩ }).ysws_name = none) ∧
    ((convertApprovedProject salt { p with email := ⟨z, false⟩ }).email_hash = none) ∧
    ((convertMention { m with id := ⟨z, false⟩ }).id = none) ∧
    ((convertMention { m with mentionsID := ⟨z, false⟩ }).ysws_project_mentions_id = none) ∧
    ((convertMention { m with mentionSearches := ⟨z, false⟩ }).ysws_project_mention_searches = none) ∧
    ((convertMention { m with fromApproved := ⟨z, false⟩ }).ysws_from_ysws_approved_project = none) ∧
    ((convertMention { m with recordID := ⟨z, false⟩ }).record_id = none) ∧
    ((convertMention { m with yswsApproved := ⟨z, false⟩ }).ysws_approved_project = none) ∧
    ((convertMention { m with source := ⟨z, false⟩ }).source = none) ∧
    ((convertMention { m with linkFoundAt := ⟨z, false⟩ }).link_found_at = none) ∧
    ((convertMention { m with archiveURL := ⟨z, false⟩ }).archive_url = none) ∧
    ((convertMention { m with url := ⟨z, false⟩ }).url = none) ∧
    ((convertMention { m with headline := ⟨z, false⟩ }).headline = none) ∧
    ((convertMention { m with date := ⟨z, false⟩ }).date = none) ∧
    ((convertMention { m with weightedEngagement := ⟨x, false⟩ }).weighted_engagement_points = none) ∧
    ((convertMention { m with projectURL := ⟨z, false⟩ }).project_url = none) ∧
    ((convertMention { m with engagementCount := ⟨n, false⟩ }).engagement_count = none) ∧
    ((convertMention { m with engagementType := ⟨z, false⟩ }).engagement_type = none) ∧
    ((convertMention { m with mentionsHackClub := ⟨b, false⟩ }).mentions_hack_club = none) ∧
    ((convertMention { m with publishedByHackClub := ⟨b, false⟩ }).published_by_hack_club = none) ∧
    ((convertMention { m with mentionsHackClub := ⟨true, true⟩ }).mentions_hack_club = some (SQLVal.int 1)) ∧
    ((convertMention { m with mentionsHackClub := ⟨false, true⟩ }).mentions_hack_club = some (SQLVal.int 0)) := by
  and_intros <;>
    simp [convertApprovedProject, convertMention, nullStringToPtr, nullFloat64ToPtr,
      nullInt64ToPtr, nullBoolToInt, normalizeURLVal, normalizeURL]

/-- C9: the fast-path check returns the published artifact path exactly
when the stored path is non-empty, the elapsed time since creation is
within the TTL, and the file still exists on disk; otherwise it signals
that regeneration is needed.  It is a pure read of the state: the Go
function takes only the shared read lock. -/
theorem getCachedDB_spec (st : St) (now : Int) :
    getCachedDB st now =
      if st.path ≠ "" ∧ now - st.createdAt ≤ st.ttl ∧ st.path ∈ st.files
      then some st.path else none := by
  unfold getCachedDB cacheValid fileExists
  by_cases h1 : st.path = "" <;> by_cases h2 : now - st.createdAt ≤ st.ttl <;>
    by_cases h3 : st.path ∈ st.files <;>
    simp [h1, h2, h3, List.elem_iff]

/-- Membership after os.Remove. -/
theorem mem_removeFile (fs : List String) (p q : String) :
    q ∈ removeFile fs p ↔ q ∈ fs ∧ q ≠ p := by
  simp [removeFile, List.mem_filter]

/-- fileExists is list membership. -/
theorem fileExists_iff (fs : List String) (p : String) : fileExists fs p = true ↔ p ∈ fs :=
  List.elem_iff

/-- fileExists is false exactly on absent paths. -/
theorem fileExists_false_iff (fs : List String) (p : String) :
    fileExists fs p = false ↔ p ∉ fs := by
  rw [← fileExists_iff]
  cases fileExists fs p <;> simp

/-- The compressed name differs from its base name. -/
theorem zst_ne (a : String) : a ++ ".zst" ≠ a := by
  intro h
  have h2 := congrArg String.length h
  rw [String.length_append] at h2
  have h3 : (".zst" : String).length = 4 := rfl
  omega

/-- The compressed name is never empty. -/
theorem zst_ne_empty (a : String) : a ++ ".zst" ≠ "" := by
  intro h
  have h2 := congrArg String.length h
  rw [String.length_append] at h2
  have h3 : (".zst" : String).length = 4 := rfl
  have h4 : ("" : String).length = 0 := rfl
  omega

/-- After removing old, creating tmp and removing tmp, old is absent. -/
theorem old_not_in_cleanup (stf : List String) (old tmp : String) (ho : old ≠ tmp) :
    old ∉ removeFile (createFile (removeFile stf old) tmp) tmp := by
  intro hmem
  rcases (mem_removeFile _ _ _).mp hmem with ⟨h1, _⟩
  rcases List.mem_cons.mp h1 with h2 | h2
  · exact ho h2
  · exact ((mem_removeFile _ _ _).mp h2).2 rfl

/-- As before, with an intervening created-and-removed compressed file. -/
theorem old_not_in_cleanup2 (stf : List String) (old tmp out : String)
    (hot : old ≠ tmp) (hoo : old ≠ out) :
    old ∉ removeFile (removeFile (createFile (createFile (removeFile stf old) tmp) out) out)
      tmp := by
  intro hmem
  rcases (mem_removeFile _ _ _).mp hmem with ⟨h1, _⟩
  rcases (mem_removeFile _ _ _).mp h1 with ⟨h2, _⟩
  rcases List.mem_cons.mp h2 with h3 | h3
  · exact hoo h3
  · rcases List.mem_cons.mp h3 with h4 | h4
    · exact hot h4
    · exact ((mem_removeFile _ _ _).mp h4).2 rfl

/-- The cache misses whenever the published file is gone. -/
theorem cacheValid_no_file (st : St) (now : Int) (h : fileExists st.files st.path = false) :
    cacheValid st now = false := by
  unfold cacheValid
  rw [h]
  simp

/-- C2 (counterexample): a regeneration against an expired cache removes
the previously published artifact first, before anything is generated and
with no publish event; when the export then fails, the old file is gone
and a subsequent get() signals regeneration instead of returning the prior
path. -/
theorem old_artifact_deleted_cex :
    (generateDB ⟨"old.zst", 0, 300, ["old.zst"]⟩ 301 ⟨"tmp1", some .copyProjects⟩).trace =
      [Ev.removeF "old.zst", Ev.createF "tmp1", Ev.removeF "tmp1"] ∧
    (generateDB ⟨"old.zst", 0, 300, ["old.zst"]⟩ 301 ⟨"tmp1", some .copyProjects⟩).res =
      .error .copyProjects ∧
    fileExists (generateDB ⟨"old.zst", 0, 300, ["old.zst"]⟩ 301
      ⟨"tmp1", some .copyProjects⟩).st.files "old.zst" = false ∧
    getCachedDB (generateDB ⟨"old.zst", 0, 300, ["old.zst"]⟩ 301
      ⟨"tmp1", some .copyProjects⟩).st 301 = none := by
  decide

/-- C2 (amended): generateDB deletes the previously published artifact at
the start of the regeneration, before the new artifact is generated or
published; consequently, whenever a regeneration fails after a prior
artifact existed, the prior file is gone and every subsequent get()
signals needs-regeneration rather than returning the prior path. -/
theorem generateDB_removes_old_first (st : St) (now : Int) (env : GenEnv)
    (hmiss : cacheValid st now = false) (hold : st.path ≠ "")
    (htmp : env.tmpPath ≠ st.path) (hzst : env.tmpPath ++ ".zst" ≠ st.path) :
    (∃ rest, (generateDB st now env).trace = Ev.removeF st.path :: rest) ∧
    ∀ e, (generateDB st now env).res = .error e →
      fileExists (generateDB st now env).st.files st.path = false ∧
      ∀ fut, getCachedDB (generateDB st now env).st fut = none := by
  have hb : (st.path == "") = false := by simpa using hold
  unfold generateDB
  simp only [hmiss, hb, Bool.false_eq_true, if_false]
  rcases hfe : env.fail with _ | s
  · -- success path: compression returns ok, no error is possible
    refine ⟨⟨_, rfl⟩, ?_⟩
    intro e he
    exact Except.noConfusion he
  · cases s
    case createTemp =>
      refine ⟨⟨_, rfl⟩, ?_⟩
      intro e he
      have hnf : fileExists (removeFile st.files st.path) st.path = false := by
        rw [fileExists_false_iff]
        intro hmem
        exact ((mem_removeFile _ _ _).mp hmem).2 rfl
      exact ⟨hnf, fun fut => by unfold getCachedDB; rw [cacheValid_no_file _ _ hnf]; rfl⟩
    case openDB =>
      refine ⟨⟨_, rfl⟩, ?_⟩
      intro e he
      have hnf : fileExists (removeFile (createFile (removeFile st.files st.path) env.tmpPath)
          env.tmpPath) st.path = false := by
        rw [fileExists_false_iff]
        exact old_not_in_cleanup _ _ _ htmp.symm
      exact ⟨hnf, fun fut => by unfold getCachedDB; rw [cacheValid_no_file _ _ hnf]; rfl⟩
    case createTables =>
      refine ⟨⟨_, rfl⟩, ?_⟩
      intro e he
      have hnf : fileExists (removeFile (createFile (removeFile st.files st.path) env.tmpPath)
          env.tmpPath) st.path = false := by
        rw [fileExists_false_iff]
        exact old_not_in_cleanup _ _ _ htmp.symm
      exact ⟨hnf, fun fut => by unfold getCachedDB; rw [cacheValid_no_file _ _ hnf]; rfl⟩
    case copyProjects =>
      refine ⟨⟨_, rfl⟩, ?_⟩
      intro e he
      have hnf : fileExists (removeFile (createFile (removeFile st.files st.path) env.tmpPath)
          env.tmpPath) st.path = false := by
        rw [fileExists_false_iff]
        exact old_not_in_cleanup _ _ _ htmp.symm
      exact ⟨hnf, fun fut => by unfold getCachedDB; rw [cacheValid_no_file _ _ hnf]; rfl⟩
    case copyMentions =>
      refine ⟨⟨_, rfl⟩, ?_⟩
      intro e he
      have hnf : fileExists (removeFile (createFile (removeFile st.files st.path) env.tmpPath)
          env.tmpPath) st.path = false := by
        rw [fileExists_false_iff]
        exact old_not_in_cleanup _ _ _ htmp.symm
      exact ⟨hnf, fun fut => by unfold getCachedDB; rw [cacheValid_no_file _ _ hnf]; rfl⟩
    case zCreateOut =>
      refine ⟨⟨_, rfl⟩, ?_⟩
      intro e he
      have hnf : fileExists (removeFile (createFile (removeFile st.files st.path) env.tmpPath)
          env.tmpPath) st.path = false := by
        rw [fileExists_false_iff]
        exact old_not_in_cleanup _ _ _ htmp.symm
      exact ⟨hnf, fun fut => by unfold getCachedDB; rw [cacheValid_no_file _ _ hnf]; rfl⟩
    case zNewEncoder =>
      refine ⟨⟨_, rfl⟩, ?_⟩
      intro e he
      have hnf : fileExists (removeFile (removeFile (createFile (createFile
          (removeFile st.files st.path) env.tmpPath) (env.tmpPath ++ ".zst"))
          (env.tmpPath ++ ".zst")) env.tmpPath) st.path = false := by
        rw [fileExists_false_iff]
        exact old_not_in_cleanup2 _ _ _ _ htmp.symm hzst.symm
      exact ⟨hnf, fun fut => by unfold getCachedDB; rw [cacheValid_no_file _ _ hnf]; rfl⟩
    case zOpenInput =>
      refine ⟨⟨_, rfl⟩, ?_⟩
      intro e he
      have hnf : fileExists (removeFile (removeFile (createFile (createFile
          (removeFile st.files st.path) env.tmpPath) (env.tmpPath ++ ".zst"))
          (env.tmpPath ++ ".zst")) env.tmpPath) st.path = false := by
        rw [fileExists_false_iff]
        exact old_not_in_cleanup2 _ _ _ _ htmp.symm hzst.symm
      exact ⟨hnf, fun fut => by unfold getCachedDB; rw [cacheValid_no_file _ _ hnf]; rfl⟩
    case zCopy =>
      refine ⟨⟨_, rfl⟩, ?_⟩
      intro e he
      have hnf : fileExists (removeFile (removeFile (createFile (createFile
          (removeFile st.files st.path) env.tmpPath) (env.tmpPath ++ ".zst"))
          (env.tmpPath ++ ".zst")) env.tmpPath) st.path = false := by
        rw [fileExists_false_iff]
        exact old_not_in_cleanup2 _ _ _ _ htmp.symm hzst.symm
      exact ⟨hnf, fun fut => by unfold getCachedDB; rw [cacheValid_no_file _ _ hnf]; rfl⟩
    case zClose =>
      refine ⟨⟨_, rfl⟩, ?_⟩
      intro e he
      have hnf : fileExists (removeFile (removeFile (createFile (createFile
          (removeFile st.files st.path) env.tmpPath) (env.tmpPath ++ ".zst"))
          (env.tmpPath ++ ".zst")) env.tmpPath) st.path = false := by
        rw [fileExists_false_iff]
        exact old_not_in_cleanup2 _ _ _ _ htmp.symm hzst.symm
      exact ⟨hnf, fun fut => by unfold getCachedDB; rw [cacheValid_no_file _ _ hnf]; rfl⟩

/-- C2 (witness): the amended theorem at a concrete failing regeneration. -/
theorem generateDB_removes_old_first_witness :
    fileExists (generateDB ⟨"old.zst", 0, 300, ["old.zst"]⟩ 301
      ⟨"tmp1", some .copyProjects⟩).st.files "old.zst" = false :=
  ((generateDB_removes_old_first ⟨"old.zst", 0, 300, ["old.zst"]⟩ 301
      ⟨"tmp1", some .copyProjects⟩ (by decide) (by decide) (by decide) (by decide)).2
    .copyProjects (by decide)).1

/-- C3 (counterexample): when compression fails during a regeneration the
error propagates, but the uncompressed database file does NOT still exist
afterwards: generateDB removes it while unwinding. -/
theorem compress_fail_removes_uncompressed_cex :
    (generateDB ⟨"", 0, 300, []⟩ 0 ⟨"tmp1", some .zCopy⟩).res = .error .zCopy ∧
    fileExists (generateDB ⟨"", 0, 300, []⟩ 0 ⟨"tmp1", some .zCopy⟩).st.files "tmp1" = false := by
  decide

/-- C3 (amended): if compression fails at any point, compressWithZstd
itself deletes the partially written compressed output, propagates the
error and leaves the uncompressed input file untouched; however its caller
generateDB then deletes the uncompressed file while unwinding, so the file
does not survive the failed regeneration. -/
theorem compressWithZstd_cleanup :
    (∀ fs p e,
      (e = Stage.zCreateOut ∨ e = Stage.zNewEncoder ∨ e = Stage.zOpenInput ∨
        e = Stage.zCopy ∨ e = Stage.zClose) →
      fileExists fs (p ++ ".zst") = false →
      (compressWithZstd fs p (some e)).2.1 = .error e ∧
      fileExists (compressWithZstd fs p (some e)).1 (p ++ ".zst") = false ∧
      fileExists (compressWithZstd fs p (some e)).1 p = fileExists fs p) ∧
    (∀ st now env e, cacheValid st now = false → env.fail = some e →
      (e = Stage.zCreateOut ∨ e = Stage.zNewEncoder ∨ e = Stage.zOpenInput ∨
        e = Stage.zCopy ∨ e = Stage.zClose) →
      (generateDB st now env).res = .error e ∧
      fileExists (generateDB st now env).st.files env.tmpPath = false) := by
  constructor
  · intro fs p e he hfresh
    have hbranch : ∀ e2 : Stage,
        (removeFile (createFile fs (p ++ ".zst")) (p ++ ".zst"),
          (Except.error e2 : Except Stage String),
          [Ev.createF (p ++ ".zst"), Ev.removeF (p ++ ".zst")]).2.1 = .error e2 ∧
        fileExists (removeFile (createFile fs (p ++ ".zst")) (p ++ ".zst")) (p ++ ".zst") = false ∧
        fileExists (removeFile (createFile fs (p ++ ".zst")) (p ++ ".zst")) p =
          fileExists fs p := by
      intro e2
      refine ⟨rfl, ?_, ?_⟩
      · rw [fileExists_false_iff]
        intro hmem
        exact ((mem_removeFile _ _ _).mp hmem).2 rfl
      · by_cases hp : p = p ++ ".zst"
        · exact absurd hp.symm (zst_ne p)
        · have hiff : p ∈ removeFile (createFile fs (p ++ ".zst")) (p ++ ".zst") ↔ p ∈ fs := by
            rw [mem_removeFile]
            constructor
            · intro ⟨h1, h2⟩
              rcases List.mem_cons.mp h1 with h3 | h3
              · exact absurd h3 hp
              · exact h3
            · intro h1
              exact ⟨List.mem_cons_of_mem _ h1, hp⟩
          cases hl : fileExists (removeFile (createFile fs (p ++ ".zst")) (p ++ ".zst")) p <;>
            cases hr : fileExists fs p
          · rfl
          · exact absurd (fileExists_iff _ _ |>.mpr (hiff.mpr (fileExists_iff _ _ |>.mp hr)))
              (by rw [hl]; simp)
          · exact absurd (fileExists_iff _ _ |>.mpr (hiff.mp (fileExists_iff _ _ |>.mp hl)))
              (by rw [hr]; simp)
          · rfl
    rcases he with rfl | rfl | rfl | rfl | rfl
    · exact ⟨rfl, hfresh, rfl⟩
    · exact hbranch _
    · exact hbranch _
    · exact hbranch _
    · exact hbranch _
  · intro st now env e hmiss hfe he
    unfold generateDB
    simp only [hmiss, Bool.false_eq_true, if_false, hfe]
    have htmpgone : ∀ fs2 : List String,
        fileExists (removeFile fs2 env.tmpPath) env.tmpPath = false := by
      intro fs2
      rw [fileExists_false_iff]
      intro hmem
      exact ((mem_removeFile _ _ _).mp hmem).2 rfl
    rcases he with rfl | rfl | rfl | rfl | rfl <;> exact ⟨rfl, htmpgone _⟩

/-- C3 (witness): the compression-cleanup theorem at a concrete input. -/
theorem compressWithZstd_cleanup_witness :
    fileExists (compressWithZstd ["indb"] "indb" (some .zCopy)).1 "indb" =
      fileExists ["indb"] "indb" :=
  (compressWithZstd_cleanup.1 ["indb"] "indb" .zCopy (by decide) (by decide)).2.2

/-- A cache hit makes generateDB return the published path unchanged
without running the export (the double-check of lines 346-350). -/
theorem generateDB_hit (st : St) (now : Int) (env : GenEnv) (h : cacheValid st now = true) :
    generateDB st now env = ⟨st, .ok st.path, false, []⟩ := by
  unfold generateDB
  rw [if_pos h]

/-- On a cache miss with no failure, generateDB runs the export once and
publishes the compressed temp file with the current timestamp. -/
theorem generateDB_success (st : St) (now : Int) (env : GenEnv)
    (hmiss : cacheValid st now = false) (hok : env.fail = none) :
    (generateDB st now env).res = .ok (env.tmpPath ++ ".zst") ∧
    (generateDB st now env).regen = true ∧
    (generateDB st now env).st.path = env.tmpPath ++ ".zst" ∧
    (generateDB st now env).st.createdAt = now ∧
    (generateDB st now env).st.ttl = st.ttl ∧
    fileExists (generateDB st now env).st.files (env.tmpPath ++ ".zst") = true := by
  unfold generateDB
  simp only [hmiss, Bool.false_eq_true, if_false, hok, compressWithZstd]
  refine ⟨?_, ?_, ?_, ?_, ?_, ?_⟩
  all_goals first
    | trivial
    | (rw [fileExists_iff, mem_removeFile]
       exact ⟨List.mem_cons_self _ _, zst_ne env.tmpPath⟩)

/-- The state published by a successful regeneration is immediately valid
(at the same instant, for a non-negative TTL). -/
theorem cacheValid_published (st : St) (now : Int) (env : GenEnv)
    (hmiss : cacheValid st now = false) (hok : env.fail = none) (httl : 0 ≤ st.ttl) :
    cacheValid (generateDB st now env).st now = true := by
  obtain ⟨_, _, hpath, hcreated, httl2, hex⟩ := generateDB_success st now env hmiss hok
  unfold cacheValid
  rw [hpath, hcreated, httl2, hex]
  have h1 : ((env.tmpPath ++ ".zst") == "") = false := by
    simpa using zst_ne_empty env.tmpPath
  rw [h1]
  have h2 : decide (now - now ≤ st.ttl) = true := by
    simp
    omega
  rw [h2]
  rfl

/-- Every atomic section preserves the invariant. -/
theorem stepThread_inv (st0 : St) (now : Int) (envs : Nat → GenEnv)
    (hmiss : cacheValid st0 now = false) (httl : 0 ≤ st0.ttl) (hfail : (envs 0).fail = none)
    (c : Conf) (i : Nat) (hinv : cfgInv st0 now envs c) :
    cfgInv st0 now envs (stepThread envs now c i) := by
  unfold stepThread
  rcases hinv with ⟨hg, hst, hph⟩ | ⟨hg, hst, hph⟩
  · by_cases hi : i < c.threads.length
    · have hmem : c.threads.getD i (Phase.done none) ∈ c.threads := by
        rw [List.getD_eq_getElem _ _ hi]
        exact List.getElem_mem _
      rcases hph _ hmem with hphi | hphi
      · rw [hphi]
        have hnone : getCachedDB c.st now = none := by
          rw [hst]
          unfold getCachedDB
          rw [hmiss]
          rfl
        rw [hnone]
        left
        refine ⟨hg, hst, ?_⟩
        intro ph hmem2
        rcases List.mem_or_eq_of_mem_set hmem2 with h2 | h2
        · exact hph _ h2
        · right
          exact h2
      · rw [hphi, hst, hg]
        obtain ⟨hres, hregen, _, _, _, _⟩ :=
          generateDB_success st0 now (envs 0) hmiss hfail
        show cfgInv st0 now envs
          ⟨(generateDB st0 now (envs 0)).st,
            0 + if (generateDB st0 now (envs 0)).regen = true then 1 else 0,
            c.threads.set i (Phase.done (generateDB st0 now (envs 0)).res.toOption)⟩
        right
        refine ⟨?_, rfl, ?_⟩
        · rw [hregen]
          rfl
        · intro ph hmem2
          rcases List.mem_or_eq_of_mem_set hmem2 with h2 | h2
          · rcases hph _ h2 with h3 | h3
            · exact Or.inl h3
            · exact Or.inr (Or.inl h3)
          · right
            right
            rw [h2, hres]
            rfl
    · have hoob : c.threads.getD i (Phase.done none) = Phase.done none :=
        List.getD_eq_default _ _ (by omega)
      rw [hoob]
      left
      exact ⟨hg, hst, hph⟩
  · have hvalid : cacheValid c.st now = true := by
      rw [hst]
      exact cacheValid_published st0 now (envs 0) hmiss hfail httl
    have hpath : c.st.path = (envs 0).tmpPath ++ ".zst" := by
      rw [hst]
      exact (generateDB_success st0 now (envs 0) hmiss hfail).2.2.1
    by_cases hi : i < c.threads.length
    · have hmem : c.threads.getD i (Phase.done none) ∈ c.threads := by
        rw [List.getD_eq_getElem _ _ hi]
        exact List.getElem_mem _
      rcases hph _ hmem with hphi | hphi | hphi
      · rw [hphi]
        have hsome : getCachedDB c.st now = some ((envs 0).tmpPath ++ ".zst") := by
          unfold getCachedDB
          rw [hvalid, hpath]
          rfl
        rw [hsome]
        right
        refine ⟨hg, hst, ?_⟩
        intro ph hmem2
        rcases List.mem_or_eq_of_mem_set hmem2 with h2 | h2
        · exact hph _ h2
        · right
          right
          exact h2
      · rw [hphi]
        have hgen : generateDB c.st now (envs c.genCount) = ⟨c.st, .ok c.st.path, false, []⟩ :=
          generateDB_hit _ _ _ hvalid
        rw [hgen]
        show cfgInv st0 now envs
          ⟨c.st, c.genCount + if false = true then 1 else 0,
            c.threads.set i (Phase.done (Except.ok c.st.path).toOption)⟩
        right
        refine ⟨?_, hst, ?_⟩
        · show c.genCount + 0 = 1
          rw [hg]
        · intro ph hmem2
          rcases List.mem_or_eq_of_mem_set hmem2 with h2 | h2
          · exact hph _ h2
          · right
            right
            rw [h2]
            show Phase.done (some c.st.path) = _
            rw [hpath]
      · rw [hphi]
        right
        exact ⟨hg, hst, hph⟩
    · have hoob : c.threads.getD i (Phase.done none) = Phase.done none :=
        List.getD_eq_default _ _ (by omega)
      rw [hoob]
      right
      exact ⟨hg, hst, hph⟩

/-- Running any schedule preserves the invariant. -/
theorem runSched_inv (st0 : St) (now : Int) (envs : Nat → GenEnv)
    (hmiss : cacheValid st0 now = false) (httl : 0 ≤ st0.ttl) (hfail : (envs 0).fail = none)
    (sched : List Nat) (c : Conf) (hinv : cfgInv st0 now envs c) :
    cfgInv st0 now envs (runSched envs now c sched) := by
  induction sched generalizing c with
  | nil => exact hinv
  | cons i rest ih =>
    exact ih _ (stepThread_inv st0 now envs hmiss httl hfail c i hinv)

/-- One atomic section never changes the number of request slots. -/
theorem stepThread_length (envs : Nat → GenEnv) (now : Int) (c : Conf) (i : Nat) :
    (stepThread envs now c i).threads.length = c.threads.length := by
  unfold stepThread
  rcases hph : c.threads.getD i (Phase.done none) with _ | _ | r
  · cases hc : getCachedDB c.st now <;> simp [List.length_set]
  · simp [List.length_set]
  · rfl

/-- Running a schedule never changes the number of request slots. -/
theorem runSched_length (envs : Nat → GenEnv) (now : Int) (sched : List Nat) (c : Conf) :
    (runSched envs now c sched).threads.length = c.threads.length := by
  induction sched generalizing c with
  | nil => rfl
  | cons i rest ih =>
    show (runSched envs now (stepThread envs now c i) rest).threads.length = _
    rw [ih, stepThread_length]

/-- C1: launching N concurrent dbHandler requests against an empty or
expired cache, under the RWMutex interleaving model (each read-locked fast
check and each exclusively locked generateDB body is one atomic section,
scheduled in any order), performs exactly one export run and every
completed request receives the same artifact path.  At most one
regeneration is in flight at any instant by construction of the model:
the exclusive sections are totally ordered. -/
theorem singleFlight (n : Nat) (st0 : St) (now : Int) (envs : Nat → GenEnv) (sched : List Nat)
    (hn : 1 ≤ n)
    (hmiss : cacheValid st0 now = false)
    (httl : 0 ≤ st0.ttl)
    (hfail : (envs 0).fail = none)
    (hdone : allDone (runSched envs now (initConf n st0) sched) = true) :
    (runSched envs now (initConf n st0) sched).genCount = 1 ∧
    ∀ ph ∈ (runSched envs now (initConf n st0) sched).threads,
      ph = Phase.done (some ((envs 0).tmpPath ++ ".zst")) := by
  have hinv0 : cfgInv st0 now envs (initConf n st0) :=
    Or.inl ⟨rfl, rfl, fun ph hmem => Or.inl (List.eq_of_mem_replicate hmem)⟩
  have hinv := runSched_inv st0 now envs hmiss httl hfail sched _ hinv0
  have hlen : (runSched envs now (initConf n st0) sched).threads.length = n := by
    rw [runSched_length]
    exact List.length_replicate n Phase.start
  have hall := List.all_eq_true.mp hdone
  rcases hinv with ⟨hg, _, hph⟩ | ⟨hg, hst, hph⟩
  · exfalso
    have hne : (runSched envs now (initConf n st0) sched).threads ≠ [] := by
      intro h0
      rw [h0] at hlen
      simp at hlen
      omega
    obtain ⟨ph0, hph0⟩ := List.exists_mem_of_ne_nil _ hne
    have hd := hall ph0 hph0
    rcases hph ph0 hph0 with h | h <;> rw [h] at hd <;> simp at hd
  · refine ⟨hg, ?_⟩
    intro ph hmem
    have hd := hall ph hmem
    rcases hph ph hmem with h | h | h
    · rw [h] at hd
      simp at hd
    · rw [h] at hd
      simp at hd
    · exact h

/-- C1 (witness): three requests race against an empty cache; each runs
its fast check first (all miss), then they queue on the exclusive lock;
the first generates, the other two hit the double-check.  One export run,
all three receive tmp.zst. -/
theorem singleFlight_witness :
    (runSched (fun _ => ⟨"tmp", none⟩) 0 (initConf 3 ⟨"", 0, 300, []⟩)
      [0, 1, 2, 0, 1, 2]).genCount = 1 ∧
    ∀ ph ∈ (runSched (fun _ => ⟨"tmp", none⟩) 0 (initConf 3 ⟨"", 0, 300, []⟩)
      [0, 1, 2, 0, 1, 2]).threads, ph = Phase.done (some ("tmp" ++ ".zst")) :=
  singleFlight 3 ⟨"", 0, 300, []⟩ 0 (fun _ => ⟨"tmp", none⟩) [0, 1, 2, 0, 1, 2]
    (by decide) (by decide) (by decide) rfl (by decide)

/-- C10 (implicit): when the Authorization header is non-empty but not of
the exact two-token "bearer key" form, the entire raw header value is the
credential, so a request sending the bare key in Authorization
authenticates exactly when it equals the API key; and whenever an
Authorization header is present, the X-API-Key header is ignored. -/
theorem authMiddleware_raw_header :
    (∀ auth x key : String, auth ≠ "" → bearerForm auth = false →
      (authMiddleware ⟨auth, x⟩ key = true ↔ auth = key)) ∧
    (∀ auth x key : String, auth ≠ "" →
      authMiddleware ⟨auth, x⟩ key = authMiddleware ⟨auth, ""⟩ key) := by
  constructor
  · intro auth x key hne hform
    have hbeq : (auth == "") = false := by simpa using hne
    have hkey : providedKeyOf ⟨auth, x⟩ = auth := by
      unfold providedKeyOf bearerForm at *
      simp only [show (⟨auth, x⟩ : AuthHeaders).authorization = auth from rfl, hbeq,
        Bool.not_false, if_true, hform, Bool.false_eq_true, if_false]
    unfold authMiddleware
    rw [hkey]
    show (if (auth == "") = true then false else auth == key) = true ↔ auth = key
    rw [hbeq]
    show (auth == key) = true ↔ auth = key
    exact beq_iff_eq
  · intro auth x key hne
    have hbeq : (auth == "") = false := by simpa using hne
    have hsame : providedKeyOf ⟨auth, x⟩ = providedKeyOf ⟨auth, ""⟩ := by
      unfold providedKeyOf
      simp only [show (⟨auth, x⟩ : AuthHeaders).authorization = auth from rfl,
        show (⟨auth, ""⟩ : AuthHeaders).authorization = auth from rfl, hbeq, Bool.not_false,
        if_true]
    unfold authMiddleware
    rw [hsame]

/-- C10 (witness): a bare key in the Authorization header, with a
different value in X-API-Key, authenticates against the matching API key. -/
theorem authMiddleware_raw_header_witness :
    authMiddleware ⟨"secret123", "ignored"⟩ "secret123" = true :=
  (authMiddleware_raw_header.1 "secret123" "ignored" "secret123"
    (by decide) (by decide)).mpr rfl
